import Mathlib

/-!
Verification of the OpenManusWeb agent core against its natural-language
specification.  The definitions below are a shallow embedding of the
TypeScript sources:

* `src/app/schema.ts` — `Message`, `ToolCall`, `Memory` (roles and
  tool-choice modes are plain strings in the source, so they are `String`
  here as well);
* `src/app/toolcall.ts` / `src/llm.ts` — `TokenCounter` and `LLM.ask_tool`;
* `src/app/tool/base.ts`, `src/app/tool/tool_collection.ts` — `ToolResult`,
  `ToolCollection.excute`;
* `src/app/agent/base.ts` — `BaseAgent` (`state_context`, `run`,
  `is_stuck`, `handle_stuck_state`).

JavaScript-specific behaviour is modelled explicitly: string truthiness
(`""` is falsy), `Array.prototype.slice(-n)` (where `slice(-0)` returns the
whole array), and the `in` operator.  Machine numbers that matter to the
claims are small natural numbers / rationals, so `Nat`, `Int` and `Rat`
are used directly.
-/

namespace OM

/-! ## Schema (`schema.ts`) -/

/-- The four agent-lifecycle states (`AgentState` in `schema.ts`). -/
inductive AgState
  | IDLE
  | RUNNING
  | FINISHED
  | ERROR
deriving DecidableEq, Repr

/-- List `AGENT_STATE_VALUES` from `schema.ts` (used by `state_context`'s
validity check; for the enumerated type the check always passes). -/
def AGENT_STATE_VALUES : List AgState := [.IDLE, .RUNNING, .FINISHED, .ERROR]

/-- List `ROLE_VALUES` from `schema.ts`. -/
def ROLE_VALUES : List String := ["system", "user", "assistant", "tool"]

/-- List `TOOL_CHOICE_VALUES` from `schema.ts`. -/
def TOOL_CHOICE_VALUES : List String := ["none", "auto", "required"]

/-- The `Function` payload of a tool call (`schema.ts`, class `Function`):
a name plus the raw JSON argument text. -/
structure FnSpec where
  name : String
  args : String
deriving DecidableEq, Repr

/-- Class `ToolCall` of `schema.ts`: `{id, type (default "function"), fn}`. -/
structure ToolCall where
  id : String
  type : String := "function"
  fn : FnSpec
deriving DecidableEq, Repr

/-- Class `Message` of `schema.ts`.  Optional fields of the TS class are
`Option`s; a missing field is `none`. -/
structure Message where
  role : String
  content : Option String := none
  tool_calls : Option (List ToolCall) := none
  name : Option String := none
  tool_call_id : Option String := none
  base64_image : Option String := none
deriving DecidableEq, Repr

/-- JavaScript truthiness of an optional string field:
`undefined` and `""` are falsy, every other string is truthy. -/
def strTruthy : Option String → Bool
  | none => false
  | some s => !(s == "")

/-- The transport record produced by `Message.to_dict` (the same field
set; fields the serializer dropped are `none`). -/
structure MessageDict where
  role : String
  content : Option String := none
  tool_calls : Option (List ToolCall) := none
  name : Option String := none
  tool_call_id : Option String := none
  base64_image : Option String := none
deriving DecidableEq, Repr

/-- Method `Message.to_dict` (`schema.ts` lines 89–101): start from `{role}` and
copy each optional field only when its value is truthy.  `tool_calls` is
guarded by `if (this.tool_calls)`, and any array — empty included — is
truthy, so it is copied whenever present. -/
def Message.to_dict (m : Message) : MessageDict :=
  { role := m.role
    content := if strTruthy m.content then m.content else none
    tool_calls := m.tool_calls
    name := if strTruthy m.name then m.name else none
    tool_call_id := if strTruthy m.tool_call_id then m.tool_call_id else none
    base64_image := if strTruthy m.base64_image then m.base64_image else none }

/-- Constructor `Message.user_message`. -/
def Message.user_message (content : String) : Message :=
  { role := "user", content := some content }

/-- Constructor `Message.system_message`. -/
def Message.system_message (content : String) : Message :=
  { role := "system", content := some content }

/-- Constructor `Message.assistant_message`. -/
def Message.assistant_message (content : Option String)
    (base64_image : Option String := none) : Message :=
  { role := "assistant", content := content, base64_image := base64_image }

/-- JavaScript `Array.prototype.slice(-n)` on a list, for a natural `n`.
In JavaScript `slice(-0)` is `slice(0)`, which returns the whole array;
for `n ≥ 1` it returns the last `n` elements (all of them if fewer). -/
def jsSliceLast (l : List α) (n : ℕ) : List α :=
  if n = 0 then l else l.drop (l.length - n)

/-- The last `n` elements of a list (all of them if fewer). -/
def lastN (n : ℕ) (l : List α) : List α :=
  l.drop (l.length - n)

/-- Class `Memory` of `schema.ts`: an ordered message log with a cap
(default 100). -/
structure Memory where
  messages : List Message := []
  max_messages : ℕ := 100
deriving DecidableEq, Repr

/-- Method `Memory.add_message`: push, then truncate with `slice(-max_messages)`
when the length exceeds the cap. -/
def Memory.add_message (mem : Memory) (m : Message) : Memory :=
  let msgs := mem.messages ++ [m]
  if mem.max_messages < msgs.length then
    { mem with messages := jsSliceLast msgs mem.max_messages }
  else
    { mem with messages := msgs }

/-- Method `Memory.add_messages`: push the whole batch, then truncate once. -/
def Memory.add_messages (mem : Memory) (ms : List Message) : Memory :=
  let msgs := mem.messages ++ ms
  if mem.max_messages < msgs.length then
    { mem with messages := jsSliceLast msgs mem.max_messages }
  else
    { mem with messages := msgs }

/-- Method `Memory.clear`. -/
def Memory.clear (mem : Memory) : Memory :=
  { mem with messages := [] }

/-- Method `Memory.get_recent_messages(n)` (`slice(-n)`). -/
def Memory.get_recent_messages (mem : Memory) (n : ℕ) : List Message :=
  jsSliceLast mem.messages n

/-- Method `Memory.to_dict_list`. -/
def Memory.to_dict_list (mem : Memory) : List MessageDict :=
  mem.messages.map Message.to_dict

/-- One append operation on a memory: a single-message `add_message`
or a batch `add_messages`. -/
inductive MemOp
  | add (m : Message)
  | addAll (ms : List Message)
deriving Repr

/-- The messages an operation appends. -/
def MemOp.msgs : MemOp → List Message
  | .add m => [m]
  | .addAll ms => ms

/-- Apply one append operation. -/
def applyOp (mem : Memory) : MemOp → Memory
  | .add m => mem.add_message m
  | .addAll ms => mem.add_messages ms

/-- Apply a sequence of append operations in order. -/
def applyOps (mem : Memory) (ops : List MemOp) : Memory :=
  ops.foldl applyOp mem

/-! ## Token counter (`TokenCounter` in `llm.ts` / `toolcall.ts`) -/

/-- Image detail levels accepted by `count_image`. -/
inductive Detail
  | low
  | high
  | medium
deriving DecidableEq, Repr

/-- Constant `BASE_MESSAGE_TOKENS`. -/
def BASE_MESSAGE_TOKENS : ℤ := 4
/-- Constant `FORMAT_TOKENS`. -/
def FORMAT_TOKENS : ℤ := 2
/-- Constant `LOW_DETAIL_IMAGE_TOKENS`. -/
def LOW_DETAIL_IMAGE_TOKENS : ℤ := 85
/-- Constant `HIGH_DETAIL_TILE_TOKENS`. -/
def HIGH_DETAIL_TILE_TOKENS : ℤ := 170
/-- Constant `MAX_SIZE` (longest-side clamp). -/
def MAX_SIZE : ℚ := 2048
/-- Constant `HIGH_DETAIL_TARGET_SHORT_SIDE`. -/
def HIGH_DETAIL_TARGET_SHORT_SIDE : ℚ := 768
/-- Constant `TILE_SIZE`. -/
def TILE_SIZE : ℚ := 512

/-- The external tokenizer (`tiktoken` encoder): a model-dependent map
from text to a token-id sequence.  It is an external collaborator, so it
is a parameter of every counting function. -/
def Tokenizer : Type := String → List ℕ

/-- Method `count_text`: encoded length; the falsy empty string counts 0. -/
def count_text (tok : Tokenizer) (text : String) : ℤ :=
  if text == "" then 0 else (tok text).length

/-- Variant of `count_text` applied to an optional (possibly absent, hence falsy)
string, as in `count_text(m.name!)`. -/
def count_opt_text (tok : Tokenizer) : Option String → ℤ
  | none => 0
  | some s => count_text tok s

/-- Method `_calculate_high_detail_tokens`: clamp the longest side to 2048
preserving aspect ratio, scale so the shorter side is 768, tile into
512×512 blocks with ceiling division, cost = tiles×170 + 85.
JavaScript number arithmetic is modelled over `ℚ`. -/
def calculate_high_detail_tokens (width height : ℚ) : ℤ :=
  let wh :=
    if MAX_SIZE < width ∨ MAX_SIZE < height then
      let scale := MAX_SIZE / max width height
      (width * scale, height * scale)
    else (width, height)
  let scale := HIGH_DETAIL_TARGET_SHORT_SIDE / min wh.1 wh.2
  let scaledWidth := wh.1 * scale
  let scaledHeight := wh.2 * scale
  let tilesX := ⌈scaledWidth / TILE_SIZE⌉
  let tilesY := ⌈scaledHeight / TILE_SIZE⌉
  tilesX * tilesY * HIGH_DETAIL_TILE_TOKENS + LOW_DETAIL_IMAGE_TOKENS

/-- Method `count_image({detail = 'medium', dimensions})`. -/
def count_image (detail : Detail) (dimensions : Option (ℚ × ℚ)) : ℤ :=
  if detail = .low then LOW_DETAIL_IMAGE_TOKENS
  else
    match dimensions with
    | some d => calculate_high_detail_tokens d.1 d.2
    | none =>
        if detail = .high then calculate_high_detail_tokens 1024 2024 else 1024

/-- One entry of an array-valued message content: a bare string, a
`{text}` part, or an `{image_url, detail?, dimensions?}` part. -/
inductive ContentPart
  | str (s : String)
  | textPart (text : String)
  | imagePart (image_url : String) (detail : Option Detail)
      (dimensions : Option (ℚ × ℚ))
deriving Repr

/-- Message content: a plain string or a sequence of parts. -/
inductive ContentVal
  | str (s : String)
  | parts (l : List ContentPart)
deriving Repr

/-- Token count of one content part (the branches of the `forEach` in
`count_content`; an image part uses the `'medium'` default detail). -/
def content_part_tokens (tok : Tokenizer) : ContentPart → ℤ
  | .str s => count_text tok s
  | .textPart t => count_text tok t
  | .imagePart _ detail dims => count_image (detail.getD .medium) dims

/-- Method `count_content`. -/
def count_content (tok : Tokenizer) : ContentVal → ℤ
  | .str s => count_text tok s
  | .parts l => (l.map (content_part_tokens tok)).sum

/-- Method `count_tool_calls` (every `ToolCall` record carries `fn`). -/
def count_tool_calls (tok : Tokenizer) (tool_calls : List ToolCall) : ℤ :=
  (tool_calls.map (fun t => count_text tok t.fn.name + count_text tok t.fn.args)).sum

/-- The transport-record shape `count_message_tokens` is applied to: the
output of `format_messages` (serialized messages whose content may have
been rewritten into a parts array).  Field presence is `isSome`. -/
structure TMessage where
  role : String
  content : Option ContentVal := none
  tool_calls : Option (List ToolCall) := none
  name : Option String := none
  tool_call_id : Option String := none
deriving Repr

/-- The per-message summand of `count_message_tokens`. -/
def message_tokens (tok : Tokenizer) (m : TMessage) : ℤ :=
  BASE_MESSAGE_TOKENS + count_text tok m.role +
    (match m.content with
      | some c => count_content tok c
      | none => 0) +
    (match m.tool_calls with
      | some l => count_tool_calls tok l
      | none => 0) +
    count_opt_text tok m.name + count_opt_text tok m.tool_call_id

/-- Method `count_message_tokens`: the fixed format overhead plus the sum of the
per-message counts. -/
def count_message_tokens (tok : Tokenizer) (messages : List TMessage) : ℤ :=
  FORMAT_TOKENS + (messages.map (message_tokens tok)).sum

/-! ## Stuck-state detection (`BaseAgent.is_stuck`) -/

/-- Method `BaseAgent.is_stuck`, as a function of the memory log and
`duplicate_threshold`: fewer than two messages or a falsy last content is
never stuck; otherwise count the non-last messages (the source reverses
the slice first, which does not change the count) whose role is
`assistant` and whose content equals the last message's content, and
compare against the threshold. -/
def is_stuck_log (msgs : List Message) (duplicate_threshold : ℕ) : Bool :=
  if msgs.length < 2 then false
  else
    match msgs.getLast? with
    | none => false
    | some last =>
        match last.content with
        | none => false
        | some c =>
            if c == "" then false
            else
              duplicate_threshold ≤
                ((msgs.dropLast.reverse.filter
                  (fun m => m.role == "assistant" && m.content == some c)).length)

/-- Written from the spec's words: the most recent message has non-empty
content, and the same exact content appears as the content of at least
`threshold` other assistant-role messages earlier in the log. -/
def stuck_per_spec (msgs : List Message) (threshold : ℕ) : Prop :=
  ∃ last c, msgs.getLast? = some last ∧ last.content = some c ∧ c ≠ "" ∧
    threshold ≤ msgs.dropLast.countP (fun m => m.role == "assistant" && m.content == some c)

/-- A message all of whose optional string fields are the (falsy) empty
string; used to exercise the serializer. -/
def emptyFieldsMessage : Message :=
  { role := "assistant", content := some "", name := some "",
    tool_call_id := some "", base64_image := some "" }

/-! ## Tool results and the tool registry
(`tool/base.ts`, `tool/tool_collection.ts`) -/

/-- Class `ToolResult` of `tool/base.ts`: all four fields optional. -/
structure ToolResult where
  output : Option String := none
  error : Option String := none
  base64_image : Option String := none
  system : Option String := none
deriving DecidableEq, Repr

/-- Constructor call `new ToolFailure({error})`: the failure-shaped `ToolResult`. -/
def ToolFailure (error : String) : ToolResult := { error := some error }

/-- A tool input (`Record<string, any>`); its structure is irrelevant to
the registry, which passes it through. -/
def ToolInput : Type := List (String × String)

/-- The outcome of running a tool's `execute`: a normal result, a thrown
structured `ToolError` (carrying its message), or any other thrown
failure. -/
inductive ExecOutcome
  | ok (r : ToolResult)
  | toolError (msg : String)
  | exn (msg : String)

/-- One registered tool: its unique name and its `execute` behaviour. -/
structure BTool where
  name : String
  execute : ToolInput → ExecOutcome

/-- Lookup in `ToolCollection`'s `tool_map`: the constructor builds a `Map`
from the tool list, so a duplicated name maps to its last occurrence. -/
def tool_map_get (tools : List BTool) (name : String) : Option BTool :=
  (tools.filter (fun t => t.name == name)).getLast?

/-- Method `ToolCollection.excute` (sic, `tool_collection.ts` lines 19–38):
unknown name yields an error-only `ToolFailure` (no exception); a thrown
`ToolError` is converted into a `ToolFailure`; any other thrown failure
propagates uncaught (`Except.error`). -/
def excute (tools : List BTool) (name : String) (tool_input : ToolInput) :
    Except String ToolResult :=
  match tool_map_get tools name with
  | none => .ok (ToolFailure ("Tool " ++ name ++ " not found"))
  | some tool =>
      match tool.execute tool_input with
      | .ok r => .ok r
      | .toolError m => .ok (ToolFailure m)
      | .exn m => .error m

/-! ## `LLM.ask_tool` (`llm.ts` lines 500–574) -/

/-- The runtime shape of one entry of `ask_tool`'s `tools` argument:
whether it is an object, and whether it carries its own `type` field. -/
structure ToolDesc where
  isObject : Bool
  hasType : Bool
deriving DecidableEq, Repr

/-- The `'type' in tools` test the validation loop actually performs:
`tools` is the surrounding ARRAY (not the current `tool`), and an array
has no `type` property, so the test is false on every iteration. -/
def arrayHasTypeProp (_tools : List ToolDesc) : Bool := false

/-- A provider chat-completion response, as far as `ask_tool` inspects
it: no usable choices, or a first choice's message. -/
inductive ProviderResponse
  | noChoices
  | message (content : Option String) (tool_calls : List ToolCall)
deriving DecidableEq, Repr

/-- The failures `ask_tool` raises itself. -/
inductive AskError
  | valueError (msg : String)
  | tokenLimitExceeded (msg : String)
deriving DecidableEq, Repr

/-- Method `LLM.ask_tool`, shallowly embedded.  Message formatting and the
token-count arithmetic are abstracted: `token_limit_ok` stands for
`check_token_limit(input_tokens)` (a comparison against the gateway's
per-instance running counters).  The control flow follows the source:
validate `tool_choice` against `TOOL_CHOICE_VALUES`; enforce the token
limit; validate the tool descriptors — the loop tests
`typeof tool !== 'object' || !('type' in tools)`, where `tools` is the
array, see `arrayHasTypeProp`; then inspect the provider response, a
missing choice list yielding `null` (`.ok none`) rather than an error. -/
def ask_tool (tool_choice : String) (tools : Option (List ToolDesc))
    (token_limit_ok : Bool) (response : ProviderResponse) :
    Except AskError (Option (Option String × List ToolCall)) :=
  if !(TOOL_CHOICE_VALUES.contains tool_choice) then
    .error (.valueError ("Invalid tool_choice: " ++ tool_choice))
  else if !token_limit_ok then
    .error (.tokenLimitExceeded "Token limit exceeded")
  else
    let validation_failed :=
      match tools with
      | none => false
      | some ts => ts.any (fun tool => !tool.isObject || !(arrayHasTypeProp ts))
    if validation_failed then
      .error (.valueError "Each tool must be a dict with 'type' field")
    else
      match response with
      | .noChoices => .ok none
      | .message content tool_calls => .ok (some (content, tool_calls))

/-! ## Base agent state machine (`agent/base.ts`) -/

/-- The `BaseAgent` fields `run` touches. -/
structure AgentS where
  state : AgState := .IDLE
  current_step : ℕ := 0
  max_steps : ℕ := 10
  memory : Memory := {}
  next_step_prompt : Option String := none
  duplicate_threshold : ℕ := 2
deriving DecidableEq, Repr

/-- Render an `AgState` for the `run` precondition error message. -/
def stateName : AgState → String
  | .IDLE => "IDLE"
  | .RUNNING => "RUNNING"
  | .FINISHED => "FINISHED"
  | .ERROR => "ERROR"

/-- Method `BaseAgent.is_stuck` on the agent. -/
def AgentS.is_stuck (a : AgentS) : Bool :=
  is_stuck_log a.memory.messages a.duplicate_threshold

/-- The corrective instruction `handle_stuck_state` prepends. -/
def stuckPrompt : String :=
  "Observed duplicate responses. Consider new strategies and avoid repeating ineffective paths already attempted."

/-- Method `BaseAgent.handle_stuck_state`: prepend the instruction to
`next_step_prompt` (an absent prompt renders as `""` via `?? ''`). -/
def AgentS.handle_stuck_state (a : AgentS) : AgentS :=
  { a with
      next_step_prompt := some (stuckPrompt ++ "\n" ++ a.next_step_prompt.getD "") }

/-- One entry of `run`'s `results` array.  The source pushes strings; the
entries are tagged here and rendered by `renderEntry`, so the joined trace
is exactly the source's string while its structure stays inspectable. -/
inductive StepEntry
  | step (i : ℕ) (s : String)
  | terminated (n : ℕ)
deriving DecidableEq, Repr

/-- The string the source pushes for each entry. -/
def renderEntry : StepEntry → String
  | .step i s => "Step " ++ toString i ++ ": " ++ s
  | .terminated n => "Terminated: Reached max steps (" ++ toString n ++ ")"

/-- JavaScript `Array.prototype.join(sep)`. -/
def jsJoin (sep : String) : List String → String
  | [] => ""
  | [x] => x
  | x :: xs => x ++ sep ++ jsJoin sep xs

/-- The expression `results.join('\n') || 'No steps executed'` (an empty join is falsy). -/
def joinOrDefault (l : List String) : String :=
  let j := jsJoin "\n" l
  if j == "" then "No steps executed" else j

/-- The abstract `step()` supplied by the step-loop subclass: it may
update the whole agent and either return a step-result string or throw. -/
def StepFn : Type := AgentS → AgentS × Except String String

/-- The `while` loop inside `run`: while `current_step < max_steps` and
the state is not `FINISHED`, increment the step counter, run one `step`
(a thrown failure aborts the loop and propagates), run the stuck check,
and push `Step {n}: {result}`.  `fuel` bounds the iterations; `run`
passes `max_steps - current_step`, which is exact whenever the step
function leaves `current_step` and `max_steps` alone (each iteration then
increments `current_step` by exactly one). -/
def run_loop (f : StepFn) :
    ℕ → AgentS → List StepEntry → AgentS × Except String (List StepEntry)
  | 0, a, results => (a, .ok results)
  | fuel + 1, a, results =>
      if a.current_step < a.max_steps ∧ a.state ≠ .FINISHED then
        let a1 := { a with current_step := a.current_step + 1 }
        match f a1 with
        | (a2, .error e) => (a2, .error e)
        | (a2, .ok stepResult) =>
            let a3 := if a2.is_stuck then a2.handle_stuck_state else a2
            run_loop f fuel a3 (results ++ [.step a3.current_step stepResult])
      else (a, .ok results)

/-- The body of `run` inside the `state_context` scope: run the loop and,
if the step budget is exhausted (`current_step >= max_steps`), reset the
step counter, force `IDLE` and push the termination notice. -/
def run_core (f : StepFn) (a : AgentS) : AgentS × Except String (List StepEntry) :=
  match run_loop f (a.max_steps - a.current_step) a [] with
  | (a2, .error e) => (a2, .error e)
  | (a2, .ok results) =>
      if a2.max_steps ≤ a2.current_step then
        ({ a2 with current_step := 0, state := .IDLE },
          .ok (results ++ [.terminated a2.max_steps]))
      else (a2, .ok results)

/-- Method `BaseAgent.state_context`: remember the previous state, set the new
one (the `AGENT_STATE_VALUES` membership check always passes for the
enumerated type), and run the body.  A thrown failure sets `ERROR` in the
`catch` and rethrows — but the `finally` then restores the previous state
on every exit path, overwriting the `ERROR` just set. -/
def state_context (a : AgentS) (new_state : AgState)
    (fn : AgentS → AgentS × Except String T) : AgentS × Except String T :=
  let prev := a.state
  match fn { a with state := new_state } with
  | (a2, .ok v) => ({ a2 with state := prev }, .ok v)
  | (a2, .error e) =>
      let a3 := { a2 with state := .ERROR }
      ({ a3 with state := prev }, .error e)

/-- Method `BaseAgent.run`: reject a non-`IDLE` start, append the optional
request as a user message, then drive the loop inside a `RUNNING` scope
and join the per-step strings. -/
def run (f : StepFn) (a : AgentS) (request : Option String) :
    AgentS × Except String String :=
  if a.state ≠ .IDLE then
    (a, .error ("Cannot run agent from state: " ++ stateName a.state))
  else
    let a0 :=
      match request with
      | some r => { a with memory := a.memory.add_message (Message.user_message r) }
      | none => a
    state_context a0 .RUNNING (fun a1 =>
      match run_core f a1 with
      | (a2, .error e) => (a2, .error e)
      | (a2, .ok results) => (a2, .ok (joinOrDefault (results.map renderEntry))))

/-- The agent state the loop starts from: the optional request appended,
state set to `RUNNING` by the scope. -/
def run_start (a : AgentS) (request : Option String) : AgentS :=
  match request with
  | some r =>
      { a with
          memory := a.memory.add_message (Message.user_message r),
          state := .RUNNING }
  | none => { a with state := .RUNNING }

/-! ## Tool-calling step loop `think()`

Modelled from the spec: the repository snapshot does not contain
`ToolCallAgent.think`'s implementation — `toolcall.ts` lines 19–24 only
declare a stub whose body is `throw new Error('Method not implemented.')`
(the IDE placeholder for an unimplemented member), and `MCPAgent.think`
merely delegates to it via `super.think()`.  The definitions below follow
spec §4.6 `think()` steps 1–6 word by word. -/

theorem lastN_length (n : ℕ) (l : List α) : (lastN n l).length = min n l.length := by
  simp only [lastN, List.length_drop]
  omega

theorem lastN_of_length_le (n : ℕ) (l : List α) (h : l.length ≤ n) : lastN n l = l := by
  simp [lastN, Nat.sub_eq_zero_of_le h]

theorem lastN_append_of_le (n : ℕ) (ws l : List α) (h : n ≤ l.length) :
    lastN n (ws ++ l) = lastN n l := by
  simp only [lastN, List.length_append]
  have hidx : ws.length + l.length - n = ws.length + (l.length - n) := by omega
  rw [hidx, List.drop_append]

theorem lastN_lastN_append (n : ℕ) (xs ys : List α) :
    lastN n (lastN n xs ++ ys) = lastN n (xs ++ ys) := by
  rcases le_or_lt xs.length n with h | h
  · rw [lastN_of_length_le n xs h]
  · have hlen : (lastN n xs).length = n := by
      rw [lastN_length]; omega
    conv_rhs =>
      rw [show xs = xs.take (xs.length - n) ++ xs.drop (xs.length - n) from
        (List.take_append_drop _ _).symm]
    rw [List.append_assoc]
    rw [lastN_append_of_le n (xs.take (xs.length - n)) (xs.drop (xs.length - n) ++ ys)]
    · rfl
    · have : (xs.drop (xs.length - n)).length = n := hlen
      simp only [List.length_append, this]
      omega

/-- One append step, from an arbitrary memory: provided the cap is at
least 1, the resulting log is exactly the last `max_messages` of the old
log plus the appended batch. -/
theorem applyOp_messages (mem : Memory) (op : MemOp) (h : 1 ≤ mem.max_messages) :
    (applyOp mem op).messages = lastN mem.max_messages (mem.messages ++ op.msgs) ∧
    (applyOp mem op).max_messages = mem.max_messages := by
  have core : ∀ ms : List Message,
      (if mem.max_messages < (mem.messages ++ ms).length then
        { mem with messages := jsSliceLast (mem.messages ++ ms) mem.max_messages }
      else ({ mem with messages := mem.messages ++ ms } : Memory)).messages =
      lastN mem.max_messages (mem.messages ++ ms) := by
    intro ms
    by_cases hlen : mem.max_messages < (mem.messages ++ ms).length
    · simp only [hlen, if_pos]
      simp only [jsSliceLast, lastN]
      rw [if_neg (by omega)]
    · simp only [hlen, if_neg, not_false_iff]
      rw [lastN_of_length_le _ _ (by omega)]
  cases op with
  | add m =>
      constructor
      · simpa [applyOp, Memory.add_message] using core [m]
      · simp only [applyOp, Memory.add_message]
        split <;> rfl
  | addAll ms =>
      constructor
      · simpa [applyOp, Memory.add_messages] using core ms
      · simp only [applyOp, Memory.add_messages]
        split <;> rfl

/-- Iterated append: after a nonempty op sequence the log is the last
`max_messages` of everything seen so far. -/
theorem applyOps_messages (mem : Memory) (ops : List MemOp) (op0 : MemOp)
    (h : 1 ≤ mem.max_messages) :
    (applyOps mem (op0 :: ops)).messages =
      lastN mem.max_messages (mem.messages ++ (op0 :: ops).flatMap MemOp.msgs) ∧
    (applyOps mem (op0 :: ops)).max_messages = mem.max_messages := by
  induction ops generalizing mem op0 with
  | nil =>
      have := applyOp_messages mem op0 h
      simpa [applyOps] using this
  | cons op1 rest ih =>
      have h0 := applyOp_messages mem op0 h
      have hmax : (applyOp mem op0).max_messages = mem.max_messages := h0.2
      have hrec := ih (applyOp mem op0) op1 (by rw [hmax]; exact h)
      constructor
      · have : (applyOps (applyOp mem op0) (op1 :: rest)).messages =
            lastN mem.max_messages
              ((applyOp mem op0).messages ++ (op1 :: rest).flatMap MemOp.msgs) := by
          rw [hrec.1, hmax]
        rw [show applyOps mem (op0 :: op1 :: rest) =
              applyOps (applyOp mem op0) (op1 :: rest) from rfl, this, h0.1,
            lastN_lastN_append]
        simp [List.flatMap_cons, List.append_assoc]
      · rw [show applyOps mem (op0 :: op1 :: rest) =
              applyOps (applyOp mem op0) (op1 :: rest) from rfl, hrec.2, hmax]

/-- C4 (amended): provided `max_messages ≥ 1`, after every `add_message` /
`add_messages` operation — i.e. after any nonempty sequence of append
operations from any starting memory — the log length is at most
`max_messages`, and the retained messages are exactly the most recent
`max_messages` (or all of them, if fewer) of the initial messages followed
by everything appended so far, in their original order.  (As stated, the
claim fails for `max_messages = 0`: the `slice(-0)` truncation returns the
whole array, see the counterexample.) -/
theorem memory_append_invariant (mem : Memory) (op0 : MemOp) (ops : List MemOp)
    (h : 1 ≤ mem.max_messages) :
    (applyOps mem (op0 :: ops)).messages =
      lastN mem.max_messages (mem.messages ++ (op0 :: ops).flatMap MemOp.msgs) ∧
    (applyOps mem (op0 :: ops)).messages.length ≤ mem.max_messages := by
  obtain ⟨h1, _h2⟩ := applyOps_messages mem ops op0 h
  refine ⟨h1, ?_⟩
  rw [h1, lastN_length]
  omega

/-- C4 witness: a default-capacity memory (cap 100) after one append. -/
theorem memory_append_invariant_witness :
    (applyOps {} [.add (Message.user_message "a")]).messages =
      lastN ({} : Memory).max_messages
        (({} : Memory).messages ++ ([MemOp.add (Message.user_message "a")]).flatMap MemOp.msgs) ∧
    (applyOps {} [.add (Message.user_message "a")]).messages.length ≤
      ({} : Memory).max_messages :=
  memory_append_invariant {} (.add (Message.user_message "a")) [] (by decide)

/-- C4 counterexample: with `max_messages = 0` the length bound
`len(messages) <= max_messages` is violated by the very first append,
because `slice(-0)` keeps the whole array. -/
theorem memory_cap_zero_cex :
    ¬ (((⟨[], 0⟩ : Memory).add_message (Message.user_message "x")).messages.length ≤
        (⟨[], 0⟩ : Memory).max_messages) := by
  decide

/-- C8: `count_message_tokens` is additive over concatenation — the fixed
format overhead `FORMAT_TOKENS = 2` is counted once, not per partition.
(Determinism is immediate: the embedding is a pure function of the
tokenizer and the message list.) -/
theorem count_message_tokens_additive (tok : Tokenizer) (a b : List TMessage) :
    count_message_tokens tok (a ++ b) =
      count_message_tokens tok a + count_message_tokens tok b - FORMAT_TOKENS := by
  simp only [count_message_tokens, List.map_append, List.sum_append]
  ring

/-- C7: `count_image` is 85 for low detail; for high/medium with known
dimensions it is the high-detail computation (clamp to 2048, scale the
short side to 768, ceiling-tile into 512×512 blocks, tiles×170+85) — in
particular 765 for a 1024×1024 high-detail image; without dimensions it is
1024 for medium and the computed 1024×2024 default (1105) for high. -/
theorem count_image_spec :
    (∀ dims, count_image .low dims = 85) ∧
    (∀ w h : ℚ, count_image .high (some (w, h)) = calculate_high_detail_tokens w h) ∧
    (∀ w h : ℚ, count_image .medium (some (w, h)) = calculate_high_detail_tokens w h) ∧
    count_image .high (some (1024, 1024)) = 765 ∧
    count_image .medium none = 1024 ∧
    count_image .high none = calculate_high_detail_tokens 1024 2024 ∧
    calculate_high_detail_tokens 1024 2024 = 1105 := by
  refine ⟨fun dims => rfl, fun w h => rfl, fun w h => rfl, ?_, rfl, rfl, ?_⟩
  · show calculate_high_detail_tokens 1024 1024 = 765
    rw [calculate_high_detail_tokens]
    norm_num [MAX_SIZE, HIGH_DETAIL_TARGET_SHORT_SIDE, TILE_SIZE,
      HIGH_DETAIL_TILE_TOKENS, LOW_DETAIL_IMAGE_TOKENS]
    rw [show (⌈(3:ℚ)/2⌉ : ℤ) = 2 by (rw [Int.ceil_eq_iff]; norm_num)]
    norm_num
  · rw [calculate_high_detail_tokens]
    norm_num [MAX_SIZE, HIGH_DETAIL_TARGET_SHORT_SIDE, TILE_SIZE,
      HIGH_DETAIL_TILE_TOKENS, LOW_DETAIL_IMAGE_TOKENS]
    rw [show (⌈(3:ℚ)/2⌉ : ℤ) = 2 by (rw [Int.ceil_eq_iff]; norm_num),
      show (⌈(759:ℚ)/256⌉ : ℤ) = 3 by (rw [Int.ceil_eq_iff]; norm_num)]
    norm_num

/-- C10: `Message.to_dict` (and hence `Memory.to_dict_list`) keeps an
optional field only when its value is truthy: empty-string `content`,
`name`, `tool_call_id` and `base64_image` are omitted from the serialized
record, a non-empty `content` is kept, and `role` is always present. -/
theorem to_dict_omits_falsy (m : Message) :
    (m.to_dict).role = m.role ∧
    (m.content = some "" → (m.to_dict).content = none) ∧
    (m.name = some "" → (m.to_dict).name = none) ∧
    (m.tool_call_id = some "" → (m.to_dict).tool_call_id = none) ∧
    (m.base64_image = some "" → (m.to_dict).base64_image = none) ∧
    (∀ s, s ≠ "" → m.content = some s → (m.to_dict).content = some s) ∧
    (∀ mem : Memory, mem.to_dict_list = mem.messages.map Message.to_dict) := by
  refine ⟨rfl, ?_, ?_, ?_, ?_, ?_, fun mem => rfl⟩
  · intro h; simp [Message.to_dict, strTruthy, h]
  · intro h; simp [Message.to_dict, strTruthy, h]
  · intro h; simp [Message.to_dict, strTruthy, h]
  · intro h; simp [Message.to_dict, strTruthy, h]
  · intro s hs h
    simp [Message.to_dict, strTruthy, h, hs]

/-- C10 witness: a message whose optional fields are all the empty
string serializes to a bare `{role}` record. -/
theorem to_dict_omits_falsy_witness :
    (emptyFieldsMessage.to_dict).role = "assistant" ∧
    (emptyFieldsMessage.to_dict).content = none ∧
    (emptyFieldsMessage.to_dict).name = none ∧
    (emptyFieldsMessage.to_dict).tool_call_id = none ∧
    (emptyFieldsMessage.to_dict).base64_image = none :=
  ⟨(to_dict_omits_falsy emptyFieldsMessage).1,
    (to_dict_omits_falsy emptyFieldsMessage).2.1 rfl,
    (to_dict_omits_falsy emptyFieldsMessage).2.2.1 rfl,
    (to_dict_omits_falsy emptyFieldsMessage).2.2.2.1 rfl,
    (to_dict_omits_falsy emptyFieldsMessage).2.2.2.2.1 rfl⟩

/-- C6: for any positive threshold, `is_stuck` returns true iff the most
recent message has non-empty content and at least `duplicate_threshold`
other assistant-role messages earlier in the log carry exactly the same
content. -/
theorem is_stuck_iff (msgs : List Message) (threshold : ℕ) (h : 1 ≤ threshold) :
    is_stuck_log msgs threshold = true ↔ stuck_per_spec msgs threshold := by
  constructor
  · intro hs
    unfold is_stuck_log at hs
    split at hs
    · simp at hs
    · split at hs
      · simp at hs
      · next last hlast =>
          split at hs
          · simp at hs
          · next c hc =>
              split at hs
              · simp at hs
              · next hce =>
                  rw [decide_eq_true_eq, List.filter_reverse, List.length_reverse,
                    ← List.countP_eq_length_filter] at hs
                  exact ⟨last, c, hlast, hc, by simpa using hce, hs⟩
  · rintro ⟨last, c, hlast, hc, hce, hcount⟩
    have hmem : msgs.dropLast ≠ [] := by
      intro hnil
      rw [hnil] at hcount
      simp at hcount
      omega
    have hlen2 : ¬ msgs.length < 2 := by
      have h1 : msgs.dropLast.length = msgs.length - 1 := List.length_dropLast msgs
      have h2 : 0 < msgs.dropLast.length := List.length_pos.mpr hmem
      omega
    have hne : msgs ≠ [] := by
      intro hnil
      rw [hnil] at hlast
      simp at hlast
    unfold is_stuck_log
    rw [if_neg hlen2, hlast]
    dsimp only
    rw [hc]
    dsimp only
    rw [if_neg (show ¬((c == "") = true) by simpa using hce), decide_eq_true_eq,
      List.filter_reverse, List.length_reverse, ← List.countP_eq_length_filter]
    exact hcount

/-- C6 witness: content `"X"` carried by exactly 2 earlier assistant
messages plus the latest occurrence is stuck at threshold 2; with only 1
earlier occurrence it is not. -/
theorem is_stuck_iff_witness :
    (is_stuck_log
        [Message.assistant_message (some "X"), Message.assistant_message (some "X"),
          Message.assistant_message (some "X")] 2 = true ↔
      stuck_per_spec
        [Message.assistant_message (some "X"), Message.assistant_message (some "X"),
          Message.assistant_message (some "X")] 2) ∧
    is_stuck_log
        [Message.assistant_message (some "X"), Message.assistant_message (some "X"),
          Message.assistant_message (some "X")] 2 = true ∧
    is_stuck_log
        [Message.assistant_message (some "X"), Message.assistant_message (some "X")] 2 =
      false :=
  ⟨is_stuck_iff _ 2 (by decide), by decide, by decide⟩

/-- C9: `ToolCollection.excute` — an unknown tool name returns a
`ToolResult` whose only set field is `error`, and never throws; a
registered tool whose `execute` throws a structured `ToolError` returns a
`ToolResult` carrying that error message; any other exception thrown by
the tool's `execute` propagates uncaught to the caller. -/
theorem excute_error_handling (tools : List BTool) (name : String) (input : ToolInput) :
    (∀ m, (ToolFailure m).output = none ∧ (ToolFailure m).error = some m ∧
      (ToolFailure m).base64_image = none ∧ (ToolFailure m).system = none) ∧
    (tool_map_get tools name = none →
      excute tools name input = .ok (ToolFailure ("Tool " ++ name ++ " not found"))) ∧
    (∀ t m, tool_map_get tools name = some t → t.execute input = .toolError m →
      excute tools name input = .ok (ToolFailure m)) ∧
    (∀ t m, tool_map_get tools name = some t → t.execute input = .exn m →
      excute tools name input = .error m) := by
  refine ⟨fun m => ⟨rfl, rfl, rfl, rfl⟩, ?_, ?_, ?_⟩
  · intro h
    simp [excute, h]
  · intro t m h1 h2
    simp [excute, h1, h2]
  · intro t m h1 h2
    simp [excute, h1, h2]

/-- A tool whose `execute` throws a structured `ToolError`. -/
def boomTool : BTool := ⟨"boom", fun _ => .toolError "bad arguments"⟩

/-- C9 witness: in a registry holding only `boomTool`, a missing name
returns the error-only `ToolFailure`, and `boom`'s thrown `ToolError` is
converted into a `ToolFailure`. -/
theorem excute_error_handling_witness :
    excute [boomTool] "missing" [] = .ok (ToolFailure "Tool missing not found") ∧
    excute [boomTool] "boom" [] = .ok (ToolFailure "bad arguments") :=
  ⟨(excute_error_handling [boomTool] "missing" []).2.1 rfl,
    (excute_error_handling [boomTool] "boom" []).2.2.1 boomTool "bad arguments" rfl rfl⟩

/-- C2: evaluation of `ask_tool`.  An invalid tool-choice mode fails with
`ValueError` and a choiceless provider response yields `null` (`.ok
none`), as the claim states; but a tools list whose every entry is an
object carrying a `type` field is REJECTED with `ValueError("Each tool
must be a dict with 'type' field")`, because the validation loop tests
`'type' in tools` — the array — instead of `'type' in tool`.  The claim
(and the code's own error message) require such a list to pass
validation, so the code diverges from the claim on every non-empty tools
list. -/
theorem ask_tool_validation_eval :
    ask_tool "auto" (some [{ isObject := true, hasType := true }]) true
        (.message (some "hi") []) =
      .error (.valueError "Each tool must be a dict with 'type' field") ∧
    ask_tool "bad_mode" none true (.message (some "hi") []) =
      .error (.valueError "Invalid tool_choice: bad_mode") ∧
    ask_tool "auto" none true .noChoices = .ok none :=
  ⟨rfl, rfl, rfl⟩

/-- Lemma: `state_context` restores the previous state on every exit path. -/
theorem state_context_state (a : AgentS) (ns : AgState)
    (fn : AgentS → AgentS × Except String T) :
    (state_context a ns fn).1.state = a.state := by
  unfold state_context
  rcases hfn : fn { a with state := ns } with ⟨a2, v⟩
  cases v with
  | ok w => rfl
  | error e => rfl

/-- C3 (amended): `run` enters `RUNNING` via the scoped `state_context`
transition, which restores the previous state on every exit path.  On a
thrown failure the `catch` does set `ERROR` and rethrow — but the
`finally` then overwrites it with the previous state before the scope
unwinds, so after a failing `run` (started from `IDLE`) the caller
observes `IDLE`, not `ERROR`. -/
theorem run_restores_prev_state (f : StepFn) (a : AgentS) (request : Option String)
    (h : a.state = .IDLE) :
    (run f a request).1.state = .IDLE := by
  unfold run
  rw [if_neg (by simp [h])]
  cases request with
  | none =>
      dsimp only
      rw [state_context_state]
      exact h
  | some r =>
      dsimp only
      rw [state_context_state]
      exact h

/-- C3 counterexample: with a step that always throws, `run` rethrows the
failure, yet the caller observes state `IDLE` (the restored previous
state) — not `ERROR` as the claim asserts. -/
theorem run_error_observes_idle_cex :
    (run (fun b => (b, .error "boom")) {} none).2 = .error "boom" ∧
    (run (fun b => (b, .error "boom")) {} none).1.state = .IDLE ∧
    AgState.IDLE ≠ .ERROR :=
  ⟨rfl, rfl, by decide⟩

/-- C3 witness: a successfully completing run also ends in the restored
previous state `IDLE`. -/
theorem run_restores_prev_state_witness :
    (run (fun b => (b, .ok "step done")) {} none).1.state = .IDLE :=
  run_restores_prev_state (fun b => (b, .ok "step done")) {} none rfl

/-- Entries accumulated by `run_loop` extend the accumulator, and every
new entry is a `step` entry. -/
theorem run_loop_entries (f : StepFn) :
    ∀ (fuel : ℕ) (a : AgentS) (res : List StepEntry) (aL : AgentS)
      (entries : List StepEntry),
      run_loop f fuel a res = (aL, .ok entries) →
      ∃ tail, entries = res ++ tail ∧ ∀ e ∈ tail, ∃ i s, e = StepEntry.step i s := by
  intro fuel
  induction fuel with
  | zero =>
      intro a res aL entries h
      unfold run_loop at h
      injection h with h1 h2
      injection h2 with h3
      exact ⟨[], by rw [← h3, List.append_nil], by simp⟩
  | succ n ih =>
      intro a res aL entries h
      unfold run_loop at h
      split at h
      · dsimp only at h
        rcases hf : f { a with current_step := a.current_step + 1 } with ⟨a2, r⟩
        rw [hf] at h
        cases r with
        | error e =>
            exfalso
            injection h with h1 h2
            exact Except.noConfusion h2
        | ok s =>
            obtain ⟨tail, htail, hstep⟩ := ih _ _ _ _ h
            refine ⟨StepEntry.step
              (if a2.is_stuck then a2.handle_stuck_state else a2).current_step s :: tail,
              ?_, ?_⟩
            · rw [htail, List.append_assoc, List.singleton_append]
            · intro e he
              rcases List.mem_cons.mp he with rfl | hmem
              · exact ⟨_, _, rfl⟩
              · exact hstep e hmem
      · injection h with h1 h2
        injection h2 with h3
        exact ⟨[], by rw [← h3, List.append_nil], by simp⟩

/-- With a step function that leaves `current_step` and `max_steps`
alone, a normal return of `run_loop` (given sufficient fuel) happens only
once the loop condition fails: the budget is exhausted or the state is
`FINISHED`. -/
theorem run_loop_exit (f : StepFn)
    (hcs : ∀ b, (f b).1.current_step = b.current_step)
    (hms : ∀ b, (f b).1.max_steps = b.max_steps) :
    ∀ (fuel : ℕ) (a : AgentS) (res : List StepEntry) (aL : AgentS)
      (entries : List StepEntry),
      a.max_steps - a.current_step ≤ fuel →
      run_loop f fuel a res = (aL, .ok entries) →
      aL.max_steps ≤ aL.current_step ∨ aL.state = .FINISHED := by
  intro fuel
  induction fuel with
  | zero =>
      intro a res aL entries hfuel h
      unfold run_loop at h
      injection h with h1 h2
      subst h1
      left
      omega
  | succ n ih =>
      intro a res aL entries hfuel h
      unfold run_loop at h
      split at h
      · next hcond =>
          obtain ⟨hlt, _hnfin⟩ := hcond
          dsimp only at h
          rcases hf : f { a with current_step := a.current_step + 1 } with ⟨a2, r⟩
          rw [hf] at h
          cases r with
          | error e =>
              exfalso
              injection h with h1 h2
              exact Except.noConfusion h2
          | ok s =>
              have h2cs : a2.current_step = a.current_step + 1 := by
                have hx := hcs { a with current_step := a.current_step + 1 }
                rw [hf] at hx
                simpa using hx
              have h2ms : a2.max_steps = a.max_steps := by
                have hx := hms { a with current_step := a.current_step + 1 }
                rw [hf] at hx
                simpa using hx
              have h3cs : (if a2.is_stuck then a2.handle_stuck_state else a2).current_step =
                  a2.current_step := by
                split <;> rfl
              have h3ms : (if a2.is_stuck then a2.handle_stuck_state else a2).max_steps =
                  a2.max_steps := by
                split <;> rfl
              exact ih _ _ _ _ (by rw [h3cs, h3ms, h2cs, h2ms]; omega) h
      · next hcond =>
          injection h with h1 h2
          subst h1
          rcases not_and_or.mp hcond with h1 | h1
          · left
            omega
          · right
            exact not_not.mp h1

/-- Joining a list ending in `x` produces a string ending in `x`. -/
theorem jsJoin_append_last (sep : String) (l : List String) (x : String) :
    ∃ pre, jsJoin sep (l ++ [x]) = pre ++ x := by
  induction l with
  | nil =>
      refine ⟨"", ?_⟩
      show x = "" ++ x
      rfl
  | cons y ys ih =>
      obtain ⟨pre, hpre⟩ := ih
      cases ys with
      | nil =>
          refine ⟨y ++ sep, ?_⟩
          show y ++ sep ++ x = y ++ sep ++ x
          rfl
      | cons z zs =>
          refine ⟨y ++ sep ++ pre, ?_⟩
          show y ++ sep ++ jsJoin sep ((z :: zs) ++ [x]) = y ++ sep ++ pre ++ x
          rw [hpre]
          simp [String.append_assoc]

/-- Joining a list whose last element is a non-empty string never
produces the empty string. -/
theorem jsJoin_ne_empty (sep : String) (l : List String) (x : String) (hx : x ≠ "") :
    jsJoin sep (l ++ [x]) ≠ "" := by
  obtain ⟨pre, hpre⟩ := jsJoin_append_last sep l x
  rw [hpre]
  intro hcontra
  have hlen := congrArg String.length hcontra
  rw [String.length_append] at hlen
  have hxz : x.length = 0 := by
    have : ("" : String).length = 0 := rfl
    omega
  exact hx (String.ext (by simpa [String.length] using List.length_eq_zero.mp hxz))

/-- The `Terminated: Reached max steps (N)` line is never empty. -/
theorem renderEntry_terminated_ne_empty (n : ℕ) :
    renderEntry (.terminated n) ≠ "" := by
  intro hcontra
  have hlen := congrArg String.length hcontra
  rw [renderEntry] at hlen
  rw [String.length_append, String.length_append] at hlen
  have h31 : ("Terminated: Reached max steps (" : String).length = 31 := rfl
  have h1 : (")" : String).length = 1 := rfl
  have h0 : ("" : String).length = 0 := rfl
  omega

/-- Characterization of `run` started from `IDLE` through `run_core` over the
loop-entry agent `run_start`: the scope's `finally` restores `IDLE` on
both exit paths. -/
theorem run_eq_core (f : StepFn) (a : AgentS) (request : Option String)
    (h : a.state = .IDLE) :
    run f a request =
      (match run_core f (run_start a request) with
        | (a2, .error e) => ({ a2 with state := AgState.IDLE }, .error e)
        | (a2, .ok results) =>
            ({ a2 with state := AgState.IDLE },
              .ok (joinOrDefault (results.map renderEntry)))) := by
  unfold run state_context
  rw [if_neg (by simp [h])]
  cases request with
  | none =>
      dsimp only [run_start]
      rcases hc : run_core f { a with state := AgState.RUNNING } with ⟨a2, r⟩
      cases r with
      | ok v => rw [h]
      | error e => rw [h]
  | some req =>
      dsimp only [run_start]
      rcases hc : run_core f { a with
          memory := a.memory.add_message (Message.user_message req),
          state := AgState.RUNNING } with ⟨a2, r⟩
      cases r with
      | ok v => rw [h]
      | error e => rw [h]

/-- C5: provided the abstract `step` leaves `current_step` and
`max_steps` alone (as the step loop's `think`/`act` do), consider a `run`
from `IDLE` whose internal `while` loop returned normally with loop-exit
agent `aL` and step entries `entries`.  If the loop exited with the state
not `FINISHED` (the step-budget path), `run` resets `current_step` to 0,
leaves the agent in state `IDLE`, and returns the newline-join of the
step lines followed by the `Terminated: Reached max steps (N)` line —
which is the trace's last line.  If instead the loop exited because a
step set `FINISHED` before the budget was exhausted, the agent ends in
the restored `IDLE` state and no `terminated` entry appears in the
trace. -/
theorem run_max_steps_trace (f : StepFn) (a : AgentS) (request : Option String)
    (h : a.state = .IDLE)
    (hcs : ∀ b, (f b).1.current_step = b.current_step)
    (hms : ∀ b, (f b).1.max_steps = b.max_steps)
    (aL : AgentS) (entries : List StepEntry)
    (hloop : run_loop f
        ((run_start a request).max_steps - (run_start a request).current_step)
        (run_start a request) [] = (aL, .ok entries)) :
    (aL.state ≠ .FINISHED →
      run f a request =
        ({ aL with current_step := 0, state := .IDLE },
          .ok (jsJoin "\n" ((entries ++ [StepEntry.terminated aL.max_steps]).map renderEntry))) ∧
      ((entries ++ [StepEntry.terminated aL.max_steps]).map renderEntry).getLast? =
        some (renderEntry (StepEntry.terminated aL.max_steps))) ∧
    (aL.state = .FINISHED → aL.current_step < aL.max_steps →
      run f a request =
        ({ aL with state := .IDLE }, .ok (joinOrDefault (entries.map renderEntry))) ∧
      ∀ e ∈ entries, ∀ n, e ≠ .terminated n) := by
  have hrc := run_eq_core f a request h
  constructor
  · intro hnf
    have hexit := run_loop_exit f hcs hms _ _ _ _ _ (le_refl _) hloop
    have hbudget : aL.max_steps ≤ aL.current_step := hexit.resolve_right hnf
    have hcore : run_core f (run_start a request) =
        ({ aL with current_step := 0, state := AgState.IDLE },
          Except.ok (entries ++ [StepEntry.terminated aL.max_steps])) := by
      unfold run_core
      rw [hloop]
      dsimp only
      rw [if_pos hbudget]
    have hne := jsJoin_ne_empty "\n" (entries.map renderEntry)
      (renderEntry (StepEntry.terminated aL.max_steps)) (renderEntry_terminated_ne_empty _)
    have hjoin :
        joinOrDefault ((entries ++ [StepEntry.terminated aL.max_steps]).map renderEntry) =
        jsJoin "\n" ((entries ++ [StepEntry.terminated aL.max_steps]).map renderEntry) := by
      unfold joinOrDefault
      rw [List.map_append]
      dsimp only
      rw [if_neg (by simpa using hne)]
    constructor
    · rw [hrc, hcore]
      dsimp only
      rw [← hjoin]
    · rw [List.map_append]
      exact List.getLast?_concat _
  · intro hfin hlt
    have hcore : run_core f (run_start a request) = (aL, Except.ok entries) := by
      unfold run_core
      rw [hloop]
      dsimp only
      rw [if_neg (by omega)]
    constructor
    · rw [hrc, hcore]
    · obtain ⟨tail, htail, hstep⟩ := run_loop_entries f _ _ _ _ _ hloop
      intro e he n
      rw [htail, List.nil_append] at he
      obtain ⟨i, s, rfl⟩ := hstep e he
      simp

/-- A step function that always succeeds with `"hi"` and changes
nothing. -/
def stepOkFn : StepFn := fun b => (b, .ok "hi")

/-- A one-step-budget agent. -/
def wAgent : AgentS := { max_steps := 1 }

/-- The loop-exit agent of `run stepOkFn wAgent (some "hello")`. -/
def wLoopAgent : AgentS :=
  { state := .RUNNING, current_step := 1, max_steps := 1,
    memory := { messages := [Message.user_message "hello"] } }

/-- C5 witness: `max_steps = 1` with a model stub that always returns
content and no tool calls — one step line, then the terminated line, and
the agent ends in `IDLE` with the step counter reset. -/
theorem run_max_steps_trace_witness :
    run stepOkFn wAgent (some "hello") =
      ({ wLoopAgent with current_step := 0, state := .IDLE },
        .ok (jsJoin "\n"
          (([StepEntry.step 1 "hi"] ++ [StepEntry.terminated wLoopAgent.max_steps]).map renderEntry))) ∧
    (([StepEntry.step 1 "hi"] ++ [StepEntry.terminated wLoopAgent.max_steps]).map
        renderEntry).getLast? =
      some (renderEntry (StepEntry.terminated wLoopAgent.max_steps)) :=
  (run_max_steps_trace stepOkFn wAgent (some "hello") rfl (fun b => rfl) (fun b => rfl)
    wLoopAgent [.step 1 "hi"] rfl).1 (by decide)

end OM
